import Mathlib

/-!
# Verification of the PO Pivot App transform (src/app.py)

Shallow embedding of the core transform of `app.py`:

* `parse_size`                — the size-string parser (lines 11–21);
* the row enrichment          — vendor-style lookup, quantity coercion (lines 29–35);
* the pivot aggregation       — `pd.pivot_table(..., margins=True, margins_name="Grand Total")`
                                followed by the Color-not-"All" filter and the column
                                reordering (lines 42–54);
* metadata extraction         — first non-missing PO number / ship date (lines 38–39).

Modelling conventions:

* CSV fields are read with `dtype=str`, so every raw field is `Option Chars`
  (`none` = a missing cell, i.e. pandas `NaN`); strings are `List Char`.
* Python/NumPy floating-point values are idealised as exact rationals `ℚ`;
  all quantities and sizes in the claims are small decimals and vulgar
  fractions, for which this is faithful up to rounding, and the claims are
  about the arithmetic relations.
* Python `float(·)` and `pandas.to_numeric` are modelled by `pyFloat`, a
  parser of finite decimal literals with optional sign, decimal point and
  exponent.  Non-finite literals (`inf`, `nan`) and digit-group underscores
  are outside the model (modelled as parse failure); no claim exercises them.
* `fractions.Fraction(str)` is modelled by `pyFraction` (sign, `num/den` or
  decimal form; a zero denominator is an error, as `Fraction` raises
  `ZeroDivisionError` there).
* Code that can raise an uncaught Python exception is modelled in
  `Except Unit`; `.error ()` means the whole run aborts.
-/

set_option maxRecDepth 4000

abbrev Chars := List Char

instance {ε α : Type} [DecidableEq ε] [DecidableEq α] : DecidableEq (Except ε α) := fun x y =>
  match x, y with
  | Except.error a, Except.error b =>
    if h : a = b then isTrue (by rw [h]) else isFalse (fun he => h (Except.error.inj he))
  | Except.ok a, Except.ok b =>
    if h : a = b then isTrue (by rw [h]) else isFalse (fun he => h (Except.ok.inj he))
  | Except.error _, Except.ok _ => isFalse (fun he => Except.noConfusion he)
  | Except.ok _, Except.error _ => isFalse (fun he => Except.noConfusion he)

/-- One raw CSV record, the fields the transform reads (`dtype=str`):
`none` models a missing cell (pandas `NaN`). -/
structure CsvRow where
  upc : Option Chars
  color : Option Chars
  size : Option Chars
  qty : Option Chars
  po : Option Chars
  ship : Option Chars
deriving DecidableEq

/-- Python `str.strip()` / the whitespace stripping of `float(·)`:
drop leading and trailing whitespace. -/
def stripChars (l : Chars) : Chars :=
  ((l.dropWhile Char.isWhitespace).reverse.dropWhile Char.isWhitespace).reverse

/-- Python `' ' in s`. -/
def hasSpace (l : Chars) : Bool := l.any (fun c => c = ' ')

/-- Python `s.split(' ')`: split on every single space character. -/
def splitOnSpace : Chars → List Chars
  | [] => [[]]
  | c :: cs =>
    if c = ' ' then [] :: splitOnSpace cs
    else
      match splitOnSpace cs with
      | [] => [[c]]
      | h :: t => (c :: h) :: t

/-- Consume an optional leading sign; return (isNegative, rest). -/
def parseSign : Chars → Bool × Chars
  | [] => (false, [])
  | c :: cs =>
    if c = '-' then (true, cs)
    else if c = '+' then (false, cs)
    else (false, c :: cs)

/-- Numeric value of a digit string (most significant first). -/
def digitsVal (l : Chars) : ℕ := l.foldl (fun a c => 10 * a + (c.toNat - 48)) 0

/-- The same value accumulated directly in `ℚ` (the `Nat`-cast of
`digitsVal`, computed without a deep cast). -/
def digitsValQ (l : Chars) : ℚ := l.foldl (fun a c => 10 * a + ((c.toNat - 48 : ℕ) : ℚ)) 0

/-- Exponent suffix of a decimal literal: optional sign then digits,
consuming the whole rest. -/
def parseExpPart (mant : ℚ) (cs : Chars) : Option ℚ :=
  let sr := parseSign cs
  let ds := sr.2.takeWhile Char.isDigit
  let rest := sr.2.dropWhile Char.isDigit
  if ds.isEmpty || !rest.isEmpty then none
  else some (mant * (if sr.1 then ((10 : ℚ) ^ digitsVal ds)⁻¹ else (10 : ℚ) ^ digitsVal ds))

/-- Unsigned decimal literal: digits, optional `.digits`, optional
`e`/`E` exponent; the whole input must be consumed. -/
def decCore (cs : Chars) : Option ℚ :=
  let ip := cs.takeWhile Char.isDigit
  let r1 := cs.dropWhile Char.isDigit
  match r1 with
  | [] => if ip.isEmpty then none else some (digitsValQ ip)
  | '.' :: r2 =>
    let fp := r2.takeWhile Char.isDigit
    let r3 := r2.dropWhile Char.isDigit
    if ip.isEmpty && fp.isEmpty then none
    else
      let mant : ℚ := digitsValQ ip + digitsValQ fp / (10 : ℚ) ^ fp.length
      match r3 with
      | [] => some mant
      | e :: r4 => if e = 'e' || e = 'E' then parseExpPart mant r4 else none
  | e :: r4 =>
    if (e = 'e' || e = 'E') && !ip.isEmpty then parseExpPart (digitsValQ ip) r4
    else none

/-- Model of Python `float(s)` on finite decimal literals (also used for
`pandas.to_numeric(·, errors="coerce")` on a string cell): `none` models
`ValueError` (or a non-finite literal, outside the model). -/
def pyFloat (cs : Chars) : Option ℚ :=
  let t := stripChars cs
  let sr := parseSign t
  (decCore sr.2).map (fun q => if sr.1 then -q else q)

/-- Unsigned part of a `fractions.Fraction` literal: either `num/den`
(digits, slash, digits; zero denominator is an error) or a decimal form. -/
def fracCore (cs : Chars) : Option ℚ :=
  let num := cs.takeWhile Char.isDigit
  let r1 := cs.dropWhile Char.isDigit
  match r1 with
  | '/' :: r2 =>
    let den := r2.takeWhile Char.isDigit
    let r3 := r2.dropWhile Char.isDigit
    if num.isEmpty || den.isEmpty || !r3.isEmpty then none
    else if digitsVal den = 0 then none
    else some (digitsValQ num / digitsValQ den)
  | _ => decCore cs

/-- Model of `fractions.Fraction(s)` for a string argument: `none` models a
raised `ValueError` or `ZeroDivisionError`. -/
def pyFraction (cs : Chars) : Option ℚ :=
  let t := stripChars cs
  let sr := parseSign t
  (fracCore sr.2).map (fun q => if sr.1 then -q else q)

/-- `parse_size` (app.py lines 11–21).  `none` input is `pd.isna` → `None`.
In the space branch (`' ' in size_str`), `split(' ')` must yield exactly two
parts and both `float(whole)` and `Fraction(frac)` must succeed; any failure
there is an *uncaught* exception (`.error ()`).  Otherwise `float(size_str)`
is attempted under `try/except`, so failure yields `None` (`.ok none`). -/
def parse_size (s : Option Chars) : Except Unit (Option ℚ) :=
  match s with
  | none => Except.ok none
  | some raw =>
    let t := stripChars raw
    if hasSpace t then
      match splitOnSpace t with
      | [whole, frac] =>
        match pyFloat whole, pyFraction frac with
        | some w, some f => Except.ok (some (w + f))
        | _, _ => Except.error ()
      | _ => Except.error ()
    else Except.ok (pyFloat t)


/-! ## Row enrichment (app.py lines 29–35) -/

abbrev RowKey := Chars × Chars × Chars

/-- Modelled from the spec: the style lookup table lives in `StyleMap.py`,
which is not under `src/`.  Per the spec it is a "static mapping from a
numeric vendor code to a record of two label strings"; its two
fields are read under the dict keys `KPR` and `Marks` in `app.py`. -/
structure StyleEntry where
  KPR : Chars
  Marks : Chars
deriving DecidableEq

/-- Modelled from the spec: `style_map` as a finite association table from a
numeric vendor code to its `StyleEntry`.  All theorems quantify over the
table, so no concrete contents are assumed. -/
abbrev StyleMap := List (ℚ × StyleEntry)

/-- Python `style_map.get(x, default)` (first matching key, else `none`). -/
def mapGet (m : StyleMap) (k : ℚ) : Option StyleEntry :=
  (m.find? (fun p => decide (p.1 = k))).map Prod.snd

def unknownStyle : Chars := "Unknown Style".toList

/-- `pd.to_numeric` of the stripped UPC/EAN column with coercion on one cell:
a missing cell stays missing, a non-numeric string coerces to `NaN` (`none`).
`pd.to_numeric` accepts the same numeric literals as `float`. -/
def vendorCode (c : CsvRow) : Option ℚ := c.upc.bind (fun s => pyFloat (stripChars s))

/-- `style_map.get(x, ...).get("KPR", "Unknown Style")` (app.py line 30).
`x = NaN` (`none`) never equals a dict key, so it falls to the default. -/
def kprLabel (m : StyleMap) (x : Option ℚ) : Chars :=
  match x with
  | none => unknownStyle
  | some code =>
    match mapGet m code with
    | none => unknownStyle
    | some e => e.KPR

/-- `style_map.get(x, ...).get("Marks", "Unknown Style")` (app.py line 31). -/
def marksLabel (m : StyleMap) (x : Option ℚ) : Chars :=
  match x with
  | none => unknownStyle
  | some code =>
    match mapGet m code with
    | none => unknownStyle
    | some e => e.Marks

/-- `pd.to_numeric` of the quantity column with coercion, then `fillna(0)`, on one
cell (app.py line 34): a missing or unparsable quantity becomes 0. -/
def parsedQty (c : CsvRow) : ℚ :=
  match c.qty with
  | none => 0
  | some s => (pyFloat s).getD 0

/-- A row after enrichment: resolved style labels, coerced quantity, parsed
size (`none` = `NaN` size). -/
structure EnrichedRow where
  color : Option Chars
  kpr : Chars
  marks : Chars
  size : Option ℚ
  qty : ℚ
deriving DecidableEq

/-- Enrichment of one CSV row (app.py lines 29–35).  `parse_size` may raise
(space branch), which aborts the whole run. -/
def enrich (m : StyleMap) (c : CsvRow) : Except Unit EnrichedRow :=
  match parse_size c.size with
  | Except.error e => Except.error e
  | Except.ok sz =>
    Except.ok ⟨c.color, kprLabel m (vendorCode c), marksLabel m (vendorCode c), sz, parsedQty c⟩

/-- the `apply(parse_size)` over the Size column together with the columnwise
enrichment: elementwise over the frame, aborting on the first raised
exception. -/
def enrichAll (m : StyleMap) : List CsvRow → Except Unit (List EnrichedRow)
  | [] => Except.ok []
  | c :: cs =>
    match enrich m c, enrichAll m cs with
    | Except.ok e, Except.ok es => Except.ok (e :: es)
    | Except.error u, _ => Except.error u
    | _, Except.error u => Except.error u

/-! ## Pivot aggregation (app.py lines 42–54)

`pd.pivot_table` (app.py lines 42–51) over index (Color, KPR Style,
Marks Style), columns Size, values the quantity, aggfunc sum,
fill_value 0, margins with margins name "Grand Total", then
`reset_index()`, the Color-not-"All" row filter and the column
reordering.

pandas semantics embedded here (defaults `dropna=True`, `sort=True`):

* a `groupby` with a `NaN` group key drops that row, so the body of the
  table has one row per `(Color, KPR, Marks)` present with *all* keys and
  the size non-missing, and one column per size value occurring in some
  such row; body cells are group sums, absent combinations filled with 0
  (`fill_value=0`);
* groups are sorted ascending (rows lexicographically by key, columns by
  numeric size), and the column reordering on line 54 pins
  `Color, KPR, Marks`, then `sorted(size_cols)`, then `Grand Total`;
* with `margins=True` and the default `dropna=True`, pandas first omits
  every row with a `NaN` in any used column before computing the margins
  (the documented `data = data[data.notna().all(axis=1)]` step); the two
  style labels are always strings and the quantity is 0-filled, so the
  omitted rows are exactly those with a missing `Color` or `Size` — the
  same rows the body omits.  The `Grand Total` *column* of a body row is
  therefore the sum over its key group restricted to rows whose size is
  present; the `Grand Total` *row* — keyed ("Grand Total", "", "") with
  empty label slots and appended last — has size-column cells summing the
  rows with that size and a present colour, and its grand corner cell
  sums all rows with both colour and size present;
* `reset_index()` turns the key levels into the three leading columns. -/

/-- Sum of the quantities of the rows satisfying `p`. -/
def qtySum (l : List EnrichedRow) (p : EnrichedRow → Bool) : ℚ :=
  ((l.filter p).map EnrichedRow.qty).sum

/-- Row-key group membership: the colour and both labels of the row match. -/
def keyMatches (k : RowKey) (r : EnrichedRow) : Bool :=
  decide (r.color = some k.1 ∧ r.kpr = k.2.1 ∧ r.marks = k.2.2)

/-- One body cell: sum of quantities over the rows of the key group with
the given size (0 when no row matches, per `fill_value=0`). -/
def cellVal (l : List EnrichedRow) (k : RowKey) (s : ℚ) : ℚ :=
  qtySum l (fun r => keyMatches k r && decide (r.size = some s))

/-- A row that survives the `dropna=True` pre-margins filter: both its
colour and its size are present (labels and quantity are never missing). -/
def keptForMargins (r : EnrichedRow) : Bool :=
  decide (r.color ≠ none) && decide (r.size ≠ none)

/-- A row whose size is present (used to state that absent-size rows
contribute nothing to the output). -/
def keepSized (r : EnrichedRow) : Bool := decide (r.size ≠ none)

/-- The `Grand Total` column entry of a body row: the sum of the key group
over the `dropna`-filtered data, i.e. restricted to rows whose size is
present (the colour is present by the key match). -/
def rowTotalVal (l : List EnrichedRow) (k : RowKey) : ℚ :=
  qtySum l (fun r => keyMatches k r && decide (r.size ≠ none))

/-- A `Grand Total` row cell: the sum over the rows with that size whose
colour is present (rows with a missing colour are omitted before the
margins are computed). -/
def colTotalVal (l : List EnrichedRow) (s : ℚ) : ℚ :=
  qtySum l (fun r => decide (r.size = some s) && decide (r.color ≠ none))

/-- The grand corner cell: the sum over the rows with both colour and size
present. -/
def grandVal (l : List EnrichedRow) : ℚ := qtySum l keptForMargins

/-- The pivot row key contributed by one row, if any: all group keys must
be non-missing or `groupby` drops the row. -/
def rowKeyOf (r : EnrichedRow) : Option RowKey :=
  match r.color, r.size with
  | some c, some _ => some (c, r.kpr, r.marks)
  | _, _ => none

/-- The pivot column key contributed by one row, if any. -/
def colKeyOf (r : EnrichedRow) : Option ℚ :=
  match r.color, r.size with
  | some _, some s => some s
  | _, _ => none

/-- Insertion into a `le`-sorted list. -/
def insertSorted {α : Type} (le : α → α → Bool) (x : α) : List α → List α
  | [] => [x]
  | y :: ys => if le x y then x :: y :: ys else y :: insertSorted le x ys

/-- Insertion sort (models the ascending group ordering of pandas). -/
def sortBy {α : Type} (le : α → α → Bool) : List α → List α
  | [] => []
  | x :: xs => insertSorted le x (sortBy le xs)

/-- Lexicographic order on strings by code point (pandas string sort). -/
def charsLeb : Chars → Chars → Bool
  | [], _ => true
  | _ :: _, [] => false
  | a :: as, b :: bs =>
    if a.toNat < b.toNat then true
    else if b.toNat < a.toNat then false
    else charsLeb as bs

/-- Lexicographic order on the `(Color, KPR, Marks)` key triple. -/
def keyLeb (a b : RowKey) : Bool :=
  if a.1 = b.1 then (if a.2.1 = b.2.1 then charsLeb a.2.2 b.2.2 else charsLeb a.2.1 b.2.1)
  else charsLeb a.1 b.1

def ratLeb (a b : ℚ) : Bool := decide (a ≤ b)

/-- The distinct body row keys, sorted ascending. -/
def bodyKeys (l : List EnrichedRow) : List RowKey :=
  sortBy keyLeb (l.filterMap rowKeyOf).dedup

/-- The distinct size column keys, sorted ascending (both the pandas group
sort and the explicit `sorted(size_cols)` of line 53). -/
def sizeColsOf (l : List EnrichedRow) : List ℚ :=
  sortBy ratLeb (l.filterMap colKeyOf).dedup

/-- One rendered grid row, in the final column order of line 54:
`Color, KPR Style, Mark\x27s Style`, the sorted size columns, `Grand Total`. -/
structure OutRow where
  color : Chars
  kpr : Chars
  marks : Chars
  cells : List ℚ
  total : ℚ
deriving DecidableEq

def grandTotalName : Chars := "Grand Total".toList

def allName : Chars := "All".toList

/-- The rendered body row of a key group. -/
def bodyRowOf (l : List EnrichedRow) (k : RowKey) : OutRow :=
  ⟨k.1, k.2.1, k.2.2, (sizeColsOf l).map (cellVal l k), rowTotalVal l k⟩

/-- The synthetic margin row, keyed ("Grand Total", "", "") with empty label slots. -/
def marginRowOf (l : List EnrichedRow) : OutRow :=
  ⟨grandTotalName, [], [], (sizeColsOf l).map (colTotalVal l), grandVal l⟩

/-- The pivot after `reset_index()`: sorted body rows then the margin row. -/
def pivotRows (l : List EnrichedRow) : List OutRow :=
  (bodyKeys l).map (bodyRowOf l) ++ [marginRowOf l]

/-- the row filter of app.py line 52 — keep rows whose Color differs from
"All" — applied to
the whole reset pivot, margin row included. -/
def renderedRows (l : List EnrichedRow) : List OutRow :=
  (pivotRows l).filter (fun r => decide (r.color ≠ allName))

/-- The aggregated content of the produced spreadsheet: the rendered grid
plus the two metadata annotations. -/
structure Output where
  rows : List OutRow
  po : Chars
  ship : Chars
deriving DecidableEq

/-- `df[col].dropna().iloc[0]` (app.py lines 38–39): the first non-missing
value; raises `IndexError` when the column is all-missing. -/
def firstPresent (l : List (Option Chars)) : Except Unit Chars :=
  match l.filterMap id with
  | [] => Except.error ()
  | p :: _ => Except.ok p

/-- The whole transform `generate_pivot_excel` (app.py lines 24–113),
restricted to its aggregated values: the rendered rows in final column
order, the PO number and the ship date.  Cosmetic cell styling (fills,
borders, merges) is not part of the value model. -/
def generate_pivot_excel (m : StyleMap) (csv : List CsvRow) : Except Unit Output :=
  match enrichAll m csv with
  | Except.error e => Except.error e
  | Except.ok rows =>
    match firstPresent (csv.map CsvRow.po), firstPresent (csv.map CsvRow.ship) with
    | Except.ok po, Except.ok ship => Except.ok ⟨renderedRows rows, po, ship⟩
    | _, _ => Except.error ()


/-- Sum of the parsed quantities of the input CSV rows satisfying `p`. -/
def csvQtySum (csv : List CsvRow) (p : CsvRow → Bool) : ℚ :=
  ((csv.filter p).map parsedQty).sum

/-- The per-input-row condition behind a pivot body cell: the colour of the row
and its two resolved style labels equal the key of the rendered row, and its
parsed size equals the column key. -/
def csvKeySizePred (m : StyleMap) (k : RowKey) (s : ℚ) (c : CsvRow) : Bool :=
  decide (c.color = some k.1 ∧ kprLabel m (vendorCode c) = k.2.1
    ∧ marksLabel m (vendorCode c) = k.2.2 ∧ parse_size c.size = Except.ok (some s))

/-- Style table used by the concrete witnesses. -/
def mW : StyleMap := [((77 : ℚ), ⟨"StyleA".toList, "StyleX".toList⟩)]

/-- Witness input: six rows exercising a vulgar-fraction size, an unknown
vendor code, an unparsable size, a literal `All` colour and a missing
colour. -/
def csvW : List CsvRow :=
  [⟨some "77".toList, some "Red".toList, some "8".toList, some "3".toList,
    some "PO123".toList, some "2024-01-01".toList⟩,
   ⟨some "77".toList, some "Red".toList, some "8 1/2".toList, some "5".toList, none, none⟩,
   ⟨some "99".toList, some "Blue".toList, some "8".toList, some "2".toList, none, none⟩,
   ⟨none, some "Red".toList, some "x".toList, some "4".toList, none, none⟩,
   ⟨none, some "All".toList, some "8".toList, some "7".toList, none, none⟩,
   ⟨none, none, some "8".toList, some "1".toList, none, none⟩]

/-- The enrichment of `csvW` (checked by evaluation below). -/
def rowsW : List EnrichedRow :=
  [⟨some "Red".toList, "StyleA".toList, "StyleX".toList, some 8, 3⟩,
   ⟨some "Red".toList, "StyleA".toList, "StyleX".toList, some (17 / 2), 5⟩,
   ⟨some "Blue".toList, unknownStyle, unknownStyle, some 8, 2⟩,
   ⟨some "Red".toList, unknownStyle, unknownStyle, none, 4⟩,
   ⟨some "All".toList, unknownStyle, unknownStyle, some 8, 7⟩,
   ⟨none, unknownStyle, unknownStyle, some 8, 1⟩]

/-- A concrete body-row key of `rowsW`. -/
def kRed : RowKey := ("Red".toList, "StyleA".toList, "StyleX".toList)

/-- Two rows with the same key, one with an unparsable size: input of the
absent-size counterexamples. -/
def csvAbsent : List CsvRow :=
  [⟨none, some "Red".toList, some "8".toList, some "3".toList,
    some "P1".toList, some "D1".toList⟩,
   ⟨none, some "Red".toList, some "x".toList, some "5".toList, none, none⟩]

/-- A minimal single-row input. -/
def csvOneRow : List CsvRow :=
  [⟨none, some "Red".toList, some "8".toList, some "3".toList,
    some "P1".toList, some "D1".toList⟩]

/-! ## Concrete sanity evaluations of the embedding -/

example : parse_size (some "8 1/2".toList) = Except.ok (some (17 / 2 : ℚ)) := by with_unfolding_all decide
example : parse_size (some "9".toList) = Except.ok (some (9 : ℚ)) := by with_unfolding_all decide
example : parse_size (some " 8.25 ".toList) = Except.ok (some (33 / 4 : ℚ)) := by with_unfolding_all decide
example : parse_size (some "x".toList) = Except.ok none := by with_unfolding_all decide
example : parse_size (some "a 1/2".toList) = Except.error () := by with_unfolding_all decide
example : parse_size (some "8  1/2".toList) = Except.error () := by with_unfolding_all decide
example : parse_size (some "8 1/0".toList) = Except.error () := by with_unfolding_all decide
example : parse_size none = Except.ok none := by with_unfolding_all decide
example : pyFloat "1e3".toList = some (1000 : ℚ) := by with_unfolding_all decide
example : pyFloat "5.".toList = some (5 : ℚ) := by with_unfolding_all decide
example : pyFloat ".5".toList = some (1 / 2 : ℚ) := by with_unfolding_all decide
example : pyFloat "".toList = none := by with_unfolding_all decide
example : pyFraction "1.5".toList = some (3 / 2 : ℚ) := by with_unfolding_all decide
example : pyFraction "-3/4".toList = some (-3 / 4 : ℚ) := by with_unfolding_all decide
example :
    generate_pivot_excel [((77 : ℚ), ⟨"StyleA".toList, "StyleX".toList⟩)]
      [⟨some "77".toList, some "Red".toList, some "8".toList, some "3".toList,
        some "PO123".toList, some "2024-01-01".toList⟩,
       ⟨some "77".toList, some "Red".toList, some "8 1/2".toList, some "5".toList,
        none, none⟩]
    = Except.ok
        ⟨[⟨"Red".toList, "StyleA".toList, "StyleX".toList, [3, 5], 8⟩,
          ⟨"Grand Total".toList, [], [], [3, 5], 8⟩],
         "PO123".toList, "2024-01-01".toList⟩ := by
  with_unfolding_all decide

example : enrichAll mW csvW = Except.ok rowsW := by with_unfolding_all decide

/-! ## Lemmas about the aggregation -/

theorem qtySum_cons (r : EnrichedRow) (l : List EnrichedRow) (p : EnrichedRow → Bool) :
    qtySum (r :: l) p = (if p r then r.qty else 0) + qtySum l p := by
  by_cases h : p r = true
  · simp [qtySum, List.filter_cons, h]
  · simp [qtySum, List.filter_cons, h]

theorem qtySum_congr (l : List EnrichedRow) (p q : EnrichedRow → Bool)
    (h : ∀ r ∈ l, p r = q r) : qtySum l p = qtySum l q := by
  induction l with
  | nil => rfl
  | cons r t ih =>
    rw [qtySum_cons, qtySum_cons, h r (List.mem_cons_self r t),
      ih (fun x hx => h x (List.mem_cons_of_mem r hx))]

theorem qtySum_false (l : List EnrichedRow) : qtySum l (fun _ => false) = 0 := by
  simp [qtySum]

theorem qtySum_split (l : List EnrichedRow) (p q : EnrichedRow → Bool) :
    qtySum l p = qtySum l (fun r => p r && q r) + qtySum l (fun r => p r && !q r) := by
  induction l with
  | nil => simp [qtySum]
  | cons r t ih =>
    rw [qtySum_cons, qtySum_cons, qtySum_cons, ih]
    cases hp : p r <;> cases hq : q r <;> simp <;> ring

theorem insertSorted_perm {α : Type} (le : α → α → Bool) (x : α) (l : List α) :
    List.Perm (insertSorted le x l) (x :: l) := by
  induction l with
  | nil => exact List.Perm.refl _
  | cons y ys ih =>
    by_cases h : le x y = true
    · simp [insertSorted, h]
    · simp only [insertSorted, h, if_false]
      exact (ih.cons y).trans (List.Perm.swap x y ys)

theorem sortBy_perm {α : Type} (le : α → α → Bool) (l : List α) :
    List.Perm (sortBy le l) l := by
  induction l with
  | nil => exact List.Perm.refl _
  | cons x xs ih => exact (insertSorted_perm le x (sortBy le xs)).trans (ih.cons x)

theorem mem_bodyKeys (l : List EnrichedRow) (k : RowKey) :
    k ∈ bodyKeys l ↔ ∃ r ∈ l, rowKeyOf r = some k := by
  unfold bodyKeys
  rw [(sortBy_perm keyLeb _).mem_iff, List.mem_dedup, List.mem_filterMap]

theorem mem_sizeColsOf (l : List EnrichedRow) (s : ℚ) :
    s ∈ sizeColsOf l ↔ ∃ r ∈ l, colKeyOf r = some s := by
  unfold sizeColsOf
  rw [(sortBy_perm ratLeb _).mem_iff, List.mem_dedup, List.mem_filterMap]

theorem nodup_sizeColsOf (l : List EnrichedRow) : (sizeColsOf l).Nodup :=
  ((sortBy_perm ratLeb _).nodup_iff).mpr (List.nodup_dedup _)

theorem bool_eq_of_iff {a b : Bool} (h : a = true ↔ b = true) : a = b := by
  cases a <;> cases b <;> simp_all

theorem map_cells_sum (l : List EnrichedRow) (p : EnrichedRow → Bool) :
    ∀ cols : List ℚ, cols.Nodup →
      ((cols.map (fun s => qtySum l (fun r => p r && decide (r.size = some s)))).sum
        = qtySum l (fun r => p r && decide (r.size ∈ cols.map some))) := by
  intro cols
  induction cols with
  | nil =>
    intro _
    rw [List.map_nil, List.sum_nil,
      qtySum_congr l _ (fun _ => false) (fun r _ => by simp), qtySum_false]
  | cons s cs ih =>
    intro hnd
    rw [List.map_cons, List.sum_cons, ih (List.nodup_cons.mp hnd).2]
    rw [qtySum_split l (fun r => p r && decide (r.size ∈ (s :: cs).map some))
      (fun r => decide (r.size = some s))]
    have h1 : ∀ r ∈ l,
        ((p r && decide (r.size ∈ (s :: cs).map some)) && decide (r.size = some s))
          = (p r && decide (r.size = some s)) := by
      intro r _
      apply bool_eq_of_iff
      simp only [Bool.and_eq_true, decide_eq_true_eq, List.map_cons, List.mem_cons]
      constructor
      · rintro ⟨⟨hp, _⟩, hs⟩
        exact ⟨hp, hs⟩
      · rintro ⟨hp, hs⟩
        exact ⟨⟨hp, Or.inl hs⟩, hs⟩
    have h2 : ∀ r ∈ l,
        ((p r && decide (r.size ∈ (s :: cs).map some)) && !decide (r.size = some s))
          = (p r && decide (r.size ∈ cs.map some)) := by
      intro r _
      apply bool_eq_of_iff
      simp only [Bool.and_eq_true, Bool.not_eq_true', decide_eq_false_iff_not,
        decide_eq_true_eq, List.map_cons, List.mem_cons]
      constructor
      · rintro ⟨⟨hp, hmem | hmem⟩, hne⟩
        · exact absurd hmem hne
        · exact ⟨hp, hmem⟩
      · rintro ⟨hp, hmem⟩
        refine ⟨⟨hp, Or.inr hmem⟩, ?_⟩
        intro he
        rcases List.mem_map.mp hmem with ⟨x, hx, hxe⟩
        rw [he] at hxe
        obtain rfl := Option.some.inj hxe
        exact (List.nodup_cons.mp hnd).1 hx
    rw [qtySum_congr l _ _ h1, qtySum_congr l _ _ h2]

theorem qtySum_filter (l : List EnrichedRow) (p q : EnrichedRow → Bool)
    (h : ∀ r, q r = true → p r = true) :
    qtySum (l.filter p) q = qtySum l q := by
  induction l with
  | nil => rfl
  | cons r t ih =>
    cases hp : p r
    · have hq : q r = false := by
        cases hqr : q r
        · rfl
        · have := h r hqr
          rw [hp] at this
          cases this
      simp only [List.filter_cons, hp]
      rw [if_neg (by simp), ih, qtySum_cons, hq]
      simp
    · simp only [List.filter_cons, hp, if_true]
      rw [qtySum_cons, qtySum_cons, ih]

theorem filterMap_filter_eq {α β : Type} (f : α → Option β) (p : α → Bool)
    (h : ∀ a, p a = false → f a = none) :
    ∀ l : List α, (l.filter p).filterMap f = l.filterMap f := by
  intro l
  induction l with
  | nil => rfl
  | cons a t ih =>
    cases hp : p a
    · simp only [List.filter_cons, hp]
      rw [if_neg (by simp), ih, List.filterMap_cons, h a hp]
    · simp only [List.filter_cons, hp, if_true, List.filterMap_cons]
      rw [ih]

theorem rowTotal_eq_cells_sum (l : List EnrichedRow) (k : RowKey) :
    rowTotalVal l k = ((sizeColsOf l).map (cellVal l k)).sum := by
  have hmap : (sizeColsOf l).map (cellVal l k)
      = (sizeColsOf l).map
          (fun s => qtySum l (fun r => keyMatches k r && decide (r.size = some s))) := rfl
  rw [hmap, map_cells_sum l (keyMatches k) (sizeColsOf l) (nodup_sizeColsOf l)]
  apply qtySum_congr
  intro r hr
  apply bool_eq_of_iff
  simp only [keyMatches, Bool.and_eq_true, decide_eq_true_eq]
  constructor
  · rintro ⟨hk, hne⟩
    refine ⟨hk, ?_⟩
    cases hsz : r.size with
    | none => exact absurd hsz hne
    | some s =>
      have hck : colKeyOf r = some s := by
        simp [colKeyOf, hk.1, hsz]
      exact List.mem_map.mpr ⟨s, (mem_sizeColsOf l s).mpr ⟨r, hr, hck⟩, rfl⟩
  · rintro ⟨hk, hmem⟩
    refine ⟨hk, ?_⟩
    rcases List.mem_map.mp hmem with ⟨x, _, hxe⟩
    rw [← hxe]
    simp

theorem grand_eq_colTotals_sum (l : List EnrichedRow) :
    grandVal l = ((sizeColsOf l).map (colTotalVal l)).sum := by
  have hmap : (sizeColsOf l).map (colTotalVal l)
      = (sizeColsOf l).map
          (fun s => qtySum l
            (fun r => decide (r.color ≠ none) && decide (r.size = some s))) := by
    apply List.map_congr_left
    intro s _
    apply qtySum_congr
    intro r _
    exact Bool.and_comm _ _
  rw [hmap, map_cells_sum l (fun r => decide (r.color ≠ none)) (sizeColsOf l)
    (nodup_sizeColsOf l)]
  apply qtySum_congr
  intro r hr
  apply bool_eq_of_iff
  simp only [keptForMargins, Bool.and_eq_true, decide_eq_true_eq]
  constructor
  · rintro ⟨hc, hne⟩
    refine ⟨hc, ?_⟩
    cases hsz : r.size with
    | none => exact absurd hsz hne
    | some s =>
      cases hcol : r.color with
      | none => exact absurd hcol hc
      | some a =>
        have hck : colKeyOf r = some s := by
          simp [colKeyOf, hcol, hsz]
        exact List.mem_map.mpr ⟨s, (mem_sizeColsOf l s).mpr ⟨r, hr, hck⟩, rfl⟩
  · rintro ⟨hc, hmem⟩
    refine ⟨hc, ?_⟩
    rcases List.mem_map.mp hmem with ⟨x, _, hxe⟩
    rw [← hxe]
    simp

theorem renderedRows_drop_absent (l : List EnrichedRow) :
    renderedRows (l.filter keepSized) = renderedRows l := by
  have hrko : ∀ r : EnrichedRow, keepSized r = false → rowKeyOf r = none := by
    intro r hp
    have hn : r.size = none := by
      simp only [keepSized, decide_eq_false_iff_not, Decidable.not_not] at hp
      exact hp
    cases hc : r.color <;> simp [rowKeyOf, hc, hn]
  have hcko : ∀ r : EnrichedRow, keepSized r = false → colKeyOf r = none := by
    intro r hp
    have hn : r.size = none := by
      simp only [keepSized, decide_eq_false_iff_not, Decidable.not_not] at hp
      exact hp
    cases hc : r.color <;> simp [colKeyOf, hc, hn]
  have hkeys : bodyKeys (l.filter keepSized) = bodyKeys l := by
    unfold bodyKeys
    rw [filterMap_filter_eq rowKeyOf keepSized hrko l]
  have hcols : sizeColsOf (l.filter keepSized) = sizeColsOf l := by
    unfold sizeColsOf
    rw [filterMap_filter_eq colKeyOf keepSized hcko l]
  have himp : ∀ (q : EnrichedRow → Bool),
      (∀ r, q r = true → keepSized r = true) →
      qtySum (l.filter keepSized) q = qtySum l q :=
    fun q hq => qtySum_filter l keepSized q hq
  have hcell : ∀ k s, cellVal (l.filter keepSized) k s = cellVal l k s := by
    intro k s
    apply himp
    intro r hq
    rw [Bool.and_eq_true] at hq
    rcases hq with ⟨_, h2⟩
    simp only [keepSized]
    apply decide_eq_true
    intro hn
    rw [hn] at h2
    cases of_decide_eq_true h2
  have hrt : ∀ k, rowTotalVal (l.filter keepSized) k = rowTotalVal l k := by
    intro k
    apply himp
    intro r hq
    rw [Bool.and_eq_true] at hq
    exact hq.2
  have hct : ∀ s, colTotalVal (l.filter keepSized) s = colTotalVal l s := by
    intro s
    apply himp
    intro r hq
    rw [Bool.and_eq_true] at hq
    rcases hq with ⟨h1, _⟩
    simp only [keepSized]
    apply decide_eq_true
    intro hn
    rw [hn] at h1
    cases of_decide_eq_true h1
  have hg : grandVal (l.filter keepSized) = grandVal l := by
    apply himp
    intro r hq
    simp only [keptForMargins, Bool.and_eq_true] at hq
    exact hq.2
  have hcellsmap : ∀ k, (sizeColsOf (l.filter keepSized)).map (cellVal (l.filter keepSized) k)
      = (sizeColsOf l).map (cellVal l k) := by
    intro k
    rw [hcols]
    exact List.map_congr_left (fun s _ => hcell k s)
  have hbody : ∀ k, bodyRowOf (l.filter keepSized) k = bodyRowOf l k := by
    intro k
    unfold bodyRowOf
    rw [hcellsmap k, hrt k]
  have hmargin : marginRowOf (l.filter keepSized) = marginRowOf l := by
    unfold marginRowOf
    rw [show (sizeColsOf (l.filter keepSized)).map (colTotalVal (l.filter keepSized))
        = (sizeColsOf l).map (colTotalVal l) from by
      rw [hcols]
      exact List.map_congr_left (fun s _ => hct s), hg]
  unfold renderedRows pivotRows
  rw [hkeys, hmargin, List.map_congr_left (fun k _ => hbody k)]

theorem renderedRows_eq (l : List EnrichedRow) :
    renderedRows l
      = ((bodyKeys l).map (bodyRowOf l)).filter (fun r => decide (r.color ≠ allName))
        ++ [marginRowOf l] := by
  unfold renderedRows pivotRows
  rw [List.filter_append]
  have hm : (decide ((marginRowOf l).color ≠ allName)) = true := by
    apply decide_eq_true
    show grandTotalName ≠ allName
    decide
  rw [show List.filter (fun r => decide (r.color ≠ allName)) [marginRowOf l] = [marginRowOf l] by
    simp only [List.filter_cons, List.filter_nil, hm, if_true]]

theorem margin_mem_rendered (l : List EnrichedRow) : marginRowOf l ∈ renderedRows l := by
  rw [renderedRows_eq]
  exact List.mem_append_right _ (List.mem_singleton_self _)

theorem bodyRow_mem_rendered (l : List EnrichedRow) (k : RowKey)
    (hk : k ∈ bodyKeys l) (hne : k.1 ≠ allName) : bodyRowOf l k ∈ renderedRows l := by
  rw [renderedRows_eq]
  apply List.mem_append_left
  exact List.mem_filter.mpr ⟨List.mem_map_of_mem _ hk, decide_eq_true hne⟩

theorem rendered_no_all (l : List EnrichedRow) :
    ∀ r ∈ renderedRows l, r.color ≠ allName := by
  intro r hr
  exact of_decide_eq_true (List.mem_filter.mp hr).2

theorem enrich_ok_elim (m : StyleMap) (c : CsvRow) (e : EnrichedRow)
    (h : enrich m c = Except.ok e) :
    e.color = c.color ∧ e.kpr = kprLabel m (vendorCode c) ∧ e.marks = marksLabel m (vendorCode c)
      ∧ parse_size c.size = Except.ok e.size ∧ e.qty = parsedQty c := by
  unfold enrich at h
  cases hp : parse_size c.size with
  | error u => rw [hp] at h; cases h
  | ok sz =>
    rw [hp] at h
    injection h with h2
    subst h2
    exact ⟨rfl, rfl, rfl, rfl, rfl⟩

theorem enrichAll_forall2 (m : StyleMap) :
    ∀ (csv : List CsvRow) (rows : List EnrichedRow), enrichAll m csv = Except.ok rows →
      List.Forall₂ (fun c e => enrich m c = Except.ok e) csv rows := by
  intro csv
  induction csv with
  | nil =>
    intro rows h
    unfold enrichAll at h
    injection h with h2
    rw [← h2]
    exact List.Forall₂.nil
  | cons c cs ih =>
    intro rows h
    unfold enrichAll at h
    cases he : enrich m c with
    | error u =>
      cases ht : enrichAll m cs with
      | error v => rw [he, ht] at h; cases h
      | ok es => rw [he, ht] at h; cases h
    | ok e =>
      cases ht : enrichAll m cs with
      | error u => rw [he, ht] at h; cases h
      | ok es =>
        rw [he, ht] at h
        injection h with h2
        rw [← h2]
        exact List.Forall₂.cons he (ih es ht)

theorem csvQtySum_cons (c : CsvRow) (cs : List CsvRow) (p : CsvRow → Bool) :
    csvQtySum (c :: cs) p = (if p c then parsedQty c else 0) + csvQtySum cs p := by
  by_cases h : p c = true
  · simp [csvQtySum, List.filter_cons, h]
  · simp [csvQtySum, List.filter_cons, h]

theorem qtySum_transfer (m : StyleMap) (pE : EnrichedRow → Bool) (pC : CsvRow → Bool)
    (hp : ∀ c e, enrich m c = Except.ok e → pE e = pC c) :
    ∀ {csv : List CsvRow} {rows : List EnrichedRow},
      List.Forall₂ (fun c e => enrich m c = Except.ok e) csv rows →
      qtySum rows pE = csvQtySum csv pC := by
  intro csv rows hf
  induction hf with
  | nil => rfl
  | @cons c e cs es hce _ ih =>
    rw [qtySum_cons, csvQtySum_cons, ih, hp c e hce, (enrich_ok_elim m c e hce).2.2.2.2]

/-! ## Lemmas about the parsers -/

theorem digit_not_ws {c : Char} (h : c.isDigit = true) : c.isWhitespace = false := by
  cases hw : c.isWhitespace
  · rfl
  · exfalso
    have hw2 := hw
    simp only [Char.isWhitespace, Bool.or_eq_true, decide_eq_true_eq] at hw2
    rcases hw2 with ((h1 | h1) | h1) | h1 <;> (subst h1; exact absurd h (by decide))

theorem digit_ne_space {c : Char} (h : c.isDigit = true) : c ≠ ' ' := by
  intro he
  subst he
  exact absurd h (by decide)

theorem dropWhile_ws_head (l : Chars)
    (h : ∀ c, l.head? = some c → c.isWhitespace = false) :
    l.dropWhile Char.isWhitespace = l := by
  cases l with
  | nil => rfl
  | cons a as =>
    rw [List.dropWhile_cons, if_neg]
    rw [h a (by rw [List.head?_cons])]
    simp

theorem stripChars_ends (l : Chars)
    (h1 : ∀ c, l.head? = some c → c.isWhitespace = false)
    (h2 : ∀ c, l.getLast? = some c → c.isWhitespace = false) :
    stripChars l = l := by
  unfold stripChars
  rw [dropWhile_ws_head l h1]
  rw [dropWhile_ws_head l.reverse (fun c hc => h2 c (by rw [← List.head?_reverse]; exact hc)),
    List.reverse_reverse]

theorem stripChars_all (l : Chars) (h : ∀ c ∈ l, c.isWhitespace = false) :
    stripChars l = l := by
  apply stripChars_ends
  · intro c hc
    cases l with
    | nil => cases hc
    | cons a as =>
      rw [List.head?_cons] at hc
      injection hc with hac
      rw [← hac]
      exact h a (List.mem_cons_self a as)
  · intro c hc
    have hne : l ≠ [] := by
      intro he
      subst he
      cases hc
    rw [List.getLast?_eq_getLast l hne] at hc
    injection hc with hac
    rw [← hac]
    exact h _ (List.getLast_mem hne)

theorem parseSign_digit (c : Char) (h : c.isDigit = true) (cs : Chars) :
    parseSign (c :: cs) = (false, c :: cs) := by
  simp only [parseSign]
  have h1 : ¬ c = '-' := by
    intro he
    subst he
    exact absurd h (by decide)
  have h2 : ¬ c = '+' := by
    intro he
    subst he
    exact absurd h (by decide)
  rw [if_neg h1, if_neg h2]

theorem takeWhile_digits_all (l : Chars) (h : ∀ c ∈ l, c.isDigit = true) :
    l.takeWhile Char.isDigit = l := by
  induction l with
  | nil => rfl
  | cons a as ih =>
    rw [List.takeWhile_cons, if_pos (h a (List.mem_cons_self a as)),
      ih (fun c hc => h c (List.mem_cons_of_mem a hc))]

theorem dropWhile_digits_all (l : Chars) (h : ∀ c ∈ l, c.isDigit = true) :
    l.dropWhile Char.isDigit = [] := by
  induction l with
  | nil => rfl
  | cons a as ih =>
    rw [List.dropWhile_cons, if_pos (h a (List.mem_cons_self a as)),
      ih (fun c hc => h c (List.mem_cons_of_mem a hc))]

theorem span_digits_append (n : Chars) (hn : ∀ c ∈ n, c.isDigit = true)
    (c : Char) (hc : c.isDigit = false) (rest : Chars) :
    (n ++ c :: rest).takeWhile Char.isDigit = n
      ∧ (n ++ c :: rest).dropWhile Char.isDigit = c :: rest := by
  induction n with
  | nil =>
    constructor
    · rw [List.nil_append, List.takeWhile_cons, if_neg (by simp [hc])]
    · rw [List.nil_append, List.dropWhile_cons, if_neg (by simp [hc])]
  | cons a as ih =>
    have ha := hn a (List.mem_cons_self a as)
    have iht := ih (fun x hx => hn x (List.mem_cons_of_mem a hx))
    constructor
    · rw [List.cons_append, List.takeWhile_cons, if_pos ha, iht.1]
    · rw [List.cons_append, List.dropWhile_cons, if_pos ha, iht.2]

theorem decCore_digits (w : Chars) (hne : w ≠ []) (hd : ∀ c ∈ w, c.isDigit = true) :
    decCore w = some (digitsValQ w) := by
  simp only [decCore]
  rw [takeWhile_digits_all w hd, dropWhile_digits_all w hd]
  cases w with
  | nil => exact absurd rfl hne
  | cons a as => rfl

theorem pyFloat_digits (w : Chars) (hne : w ≠ []) (hd : ∀ c ∈ w, c.isDigit = true) :
    pyFloat w = some (digitsValQ w) := by
  simp only [pyFloat]
  rw [stripChars_all w (fun c hc => digit_not_ws (hd c hc))]
  cases w with
  | nil => exact absurd rfl hne
  | cons a as =>
    rw [parseSign_digit a (hd a (List.mem_cons_self a as)) as]
    rw [decCore_digits (a :: as) (by intro he; cases he) hd]
    rfl

theorem fracCore_digits (n d : Chars) (hn0 : n ≠ []) (hd0 : d ≠ [])
    (hn : ∀ c ∈ n, c.isDigit = true) (hd : ∀ c ∈ d, c.isDigit = true)
    (hden : digitsVal d ≠ 0) :
    fracCore (n ++ '/' :: d) = some (digitsValQ n / digitsValQ d) := by
  have hsp := span_digits_append n hn '/' (by decide) d
  simp only [fracCore]
  rw [hsp.1, hsp.2]
  change (if (n.isEmpty || (d.takeWhile Char.isDigit).isEmpty
        || !(d.dropWhile Char.isDigit).isEmpty) = true then none
      else if digitsVal (d.takeWhile Char.isDigit) = 0 then none
      else some (digitsValQ n / digitsValQ (d.takeWhile Char.isDigit)))
    = some (digitsValQ n / digitsValQ d)
  rw [takeWhile_digits_all d hd, dropWhile_digits_all d hd]
  cases n with
  | nil => exact absurd rfl hn0
  | cons a as =>
    cases d with
    | nil => exact absurd rfl hd0
    | cons b ds =>
      rw [if_neg (by simp), if_neg hden]

theorem pyFraction_digits (n d : Chars) (hn0 : n ≠ []) (hd0 : d ≠ [])
    (hn : ∀ c ∈ n, c.isDigit = true) (hd : ∀ c ∈ d, c.isDigit = true)
    (hden : digitsVal d ≠ 0) :
    pyFraction (n ++ '/' :: d) = some (digitsValQ n / digitsValQ d) := by
  simp only [pyFraction]
  have hall : ∀ c ∈ n ++ '/' :: d, c.isWhitespace = false := by
    intro c hc
    rcases List.mem_append.mp hc with h | h
    · exact digit_not_ws (hn c h)
    · rcases List.mem_cons.mp h with h | h
      · subst h; decide
      · exact digit_not_ws (hd c h)
  rw [stripChars_all _ hall]
  cases n with
  | nil => exact absurd rfl hn0
  | cons a as =>
    rw [List.cons_append, parseSign_digit a (hn a (List.mem_cons_self a as)) _]
    rw [show (a :: as) ++ '/' :: d = a :: (as ++ '/' :: d) from rfl] at *
    rw [show a :: (as ++ '/' :: d) = (a :: as) ++ '/' :: d from rfl,
      fracCore_digits (a :: as) d hn0 hd0 hn hd hden]
    rfl

theorem splitOnSpace_no_space (t : Chars) (ht : ∀ c ∈ t, c ≠ ' ') :
    splitOnSpace t = [t] := by
  induction t with
  | nil => rfl
  | cons a as ih =>
    simp only [splitOnSpace, if_neg (ht a (List.mem_cons_self a as))]
    rw [ih (fun c hc => ht c (List.mem_cons_of_mem a hc))]

theorem splitOnSpace_append (w t : Chars) (hw : ∀ c ∈ w, c ≠ ' ') :
    splitOnSpace (w ++ ' ' :: t) = w :: splitOnSpace t := by
  induction w with
  | nil =>
    rw [List.nil_append]
    simp [splitOnSpace]
  | cons a as ih =>
    rw [List.cons_append]
    simp only [splitOnSpace, if_neg (hw a (List.mem_cons_self a as))]
    rw [ih (fun c hc => hw c (List.mem_cons_of_mem a hc))]

theorem hasSpace_mid (w t : Chars) : hasSpace (w ++ ' ' :: t) = true := by
  simp [hasSpace]

/-! ## Claim theorems: the size parser -/

/-- C7 theorem: for every size string of the form `<int> <num>/<den>` — a
nonempty digit string, one space, then a vulgar fraction of nonempty digit
strings with nonzero denominator — `parse_size` returns the number
`int + num/den`; and every plain (nonempty) digit string parses to its
numeric value.  (Witnessed at "8 1/2" ↦ 8.5 and "9" ↦ 9.) -/
theorem parse_size_valid_forms :
    (∀ w n d : Chars, w ≠ [] → n ≠ [] → d ≠ [] →
      (∀ c ∈ w, c.isDigit = true) → (∀ c ∈ n, c.isDigit = true) →
      (∀ c ∈ d, c.isDigit = true) → digitsVal d ≠ 0 →
      parse_size (some (w ++ ' ' :: (n ++ '/' :: d)))
        = Except.ok (some (digitsValQ w + digitsValQ n / digitsValQ d)))
    ∧ (∀ ds : Chars, ds ≠ [] → (∀ c ∈ ds, c.isDigit = true) →
      parse_size (some ds) = Except.ok (some (digitsValQ ds))) := by
  constructor
  · intro w n d hw0 hn0 hd0 hw hn hd hden
    have hstrip : stripChars (w ++ ' ' :: (n ++ '/' :: d)) = w ++ ' ' :: (n ++ '/' :: d) := by
      apply stripChars_ends
      · intro c hc
        cases w with
        | nil => exact absurd rfl hw0
        | cons a as =>
          rw [List.cons_append, List.head?_cons] at hc
          injection hc with hac
          rw [← hac]
          exact digit_not_ws (hw a (List.mem_cons_self a as))
      · intro c hc
        have hre : w ++ ' ' :: (n ++ '/' :: d) = (w ++ ' ' :: n ++ ['/']) ++ d := by
          simp
        rw [hre, List.getLast?_append_of_ne_nil _ hd0,
          List.getLast?_eq_getLast d hd0] at hc
        injection hc with hac
        rw [← hac]
        exact digit_not_ws (hd _ (List.getLast_mem hd0))
    simp only [parse_size]
    rw [hstrip, if_pos (hasSpace_mid w (n ++ '/' :: d))]
    rw [splitOnSpace_append w (n ++ '/' :: d) (fun c hc => digit_ne_space (hw c hc))]
    rw [splitOnSpace_no_space (n ++ '/' :: d) (by
      intro c hc
      rcases List.mem_append.mp hc with h | h
      · exact digit_ne_space (hn c h)
      · rcases List.mem_cons.mp h with h | h
        · subst h; decide
        · exact digit_ne_space (hd c h))]
    change (match pyFloat w, pyFraction (n ++ '/' :: d) with
        | some q1, some q2 => Except.ok (some (q1 + q2))
        | _, _ => Except.error ())
      = Except.ok (some (digitsValQ w + digitsValQ n / digitsValQ d))
    rw [pyFloat_digits w hw0 hw, pyFraction_digits n d hn0 hd0 hn hd hden]
  · intro ds hne hd
    simp only [parse_size]
    rw [stripChars_all ds (fun c hc => digit_not_ws (hd c hc))]
    have hns : hasSpace ds = false := by
      simp only [hasSpace]
      rw [List.any_eq_false]
      intro c hc
      simp only [decide_eq_true_eq]
      exact digit_ne_space (hd c hc)
    rw [if_neg (by rw [hns]; simp)]
    rw [pyFloat_digits ds hne hd]

/-- Witness for C7: "8 1/2" parses to 8.5 = 17/2 and "9" parses to 9. -/
theorem parse_size_valid_forms_witness :
    parse_size (some "8 1/2".toList) = Except.ok (some (17 / 2 : ℚ))
    ∧ parse_size (some "9".toList) = Except.ok (some (9 : ℚ)) := by
  constructor
  · have h := parse_size_valid_forms.1 ['8'] ['1'] ['2'] (by decide) (by decide) (by decide)
      (by decide) (by decide) (by decide) (by decide)
    have he : "8 1/2".toList = ['8'] ++ ' ' :: (['1'] ++ '/' :: ['2']) := rfl
    rw [he, h]
    with_unfolding_all decide
  · have h := parse_size_valid_forms.2 ['9'] (by decide) (by decide)
    have he : "9".toList = ['9'] := rfl
    rw [he, h]
    with_unfolding_all decide

/-- C3 counterexample: the size parser is not total.  In the space branch,
a non-numeric part before the space ("a 1/2"), a double space ("8  1/2",
whose `split(' ')` has three parts) or a zero denominator ("8 1/0") raises
an uncaught exception that aborts the whole run. -/
theorem parse_size_raises_cex :
    parse_size (some "a 1/2".toList) = Except.error ()
    ∧ parse_size (some "8  1/2".toList) = Except.error ()
    ∧ parse_size (some "8 1/0".toList) = Except.error () := by
  refine ⟨?_, ?_, ?_⟩ <;> with_unfolding_all decide

/-- C3 amended theorem: the parser is total on a missing size and on every
string whose stripped form contains no space — there it returns a number or
an absent value and never raises; only the space branch can raise. -/
theorem parse_size_total_no_space :
    parse_size none = Except.ok none
    ∧ ∀ s : Chars, hasSpace (stripChars s) = false →
        ∃ r, parse_size (some s) = Except.ok r := by
  constructor
  · rfl
  · intro s h
    refine ⟨pyFloat (stripChars s), ?_⟩
    simp only [parse_size]
    rw [if_neg (by rw [h]; simp)]

/-- Witness for the amended C3: the unparsable, space-free string "abc"
yields a value (the absent size) rather than an error. -/
theorem parse_size_total_no_space_witness :
    ∃ r, parse_size (some "abc".toList) = Except.ok r :=
  parse_size_total_no_space.2 "abc".toList (by decide)

/-! ## Claim theorems: lookup, quantity, determinism -/

/-- C6 theorem: if the numeric vendor code derived from the UPC/EAN field is
a key of the style table, both resolved labels equal the stored labels; if
the field is non-numeric/missing (`vendorCode = none`) or the code is
absent from the table, both labels are the sentinel "Unknown Style". -/
theorem style_lookup_resolution (m : StyleMap) (c : CsvRow) :
    (∀ code e, vendorCode c = some code → mapGet m code = some e →
      kprLabel m (vendorCode c) = e.KPR ∧ marksLabel m (vendorCode c) = e.Marks)
    ∧ ((vendorCode c = none ∨ ∃ code, vendorCode c = some code ∧ mapGet m code = none) →
      kprLabel m (vendorCode c) = unknownStyle ∧ marksLabel m (vendorCode c) = unknownStyle) := by
  constructor
  · intro code e hv hm
    rw [hv]
    simp [kprLabel, marksLabel, hm]
  · intro h
    rcases h with h | ⟨code, hv, hm⟩
    · rw [h]
      exact ⟨rfl, rfl⟩
    · rw [hv]
      simp [kprLabel, marksLabel, hm]

/-- Witness for C6: with table mW, UPC "77" resolves to the stored pair and
a missing UPC resolves to the sentinel. -/
theorem style_lookup_resolution_witness :
    (kprLabel mW (vendorCode ⟨some "77".toList, none, none, none, none, none⟩)
        = "StyleA".toList
      ∧ marksLabel mW (vendorCode ⟨some "77".toList, none, none, none, none, none⟩)
        = "StyleX".toList)
    ∧ (kprLabel mW (vendorCode ⟨none, none, none, none, none, none⟩) = unknownStyle
      ∧ marksLabel mW (vendorCode ⟨none, none, none, none, none, none⟩) = unknownStyle) := by
  constructor
  · exact (style_lookup_resolution mW _).1 77 ⟨"StyleA".toList, "StyleX".toList⟩
      (by with_unfolding_all decide) (by with_unfolding_all decide)
  · exact (style_lookup_resolution mW _).2 (Or.inl (by with_unfolding_all decide))

/-- C8 theorem: a missing or unparsable "Qty per Store #" cell is coerced
to 0 and the row is retained: provided its size parse does not raise,
enrichment succeeds and yields the row with quantity 0 (which then
participates in the aggregation like any other row). -/
theorem missing_qty_zero_retained (m : StyleMap) (c : CsvRow) (sz : Option ℚ)
    (hq : c.qty = none ∨ ∃ qs, c.qty = some qs ∧ pyFloat qs = none)
    (hs : parse_size c.size = Except.ok sz) :
    parsedQty c = 0
    ∧ enrich m c = Except.ok
        ⟨c.color, kprLabel m (vendorCode c), marksLabel m (vendorCode c), sz, 0⟩ := by
  have h0 : parsedQty c = 0 := by
    rcases hq with h | ⟨qs, hcs, hp⟩
    · simp [parsedQty, h]
    · simp [parsedQty, hcs, hp]
  refine ⟨h0, ?_⟩
  simp only [enrich]
  rw [hs, h0]

/-- Witness for C8: a row with a blank quantity and size "8" enriches to
quantity 0. -/
theorem missing_qty_zero_retained_witness :
    parsedQty ⟨none, some "Red".toList, some "8".toList, none, none, none⟩ = 0
    ∧ enrich [] ⟨none, some "Red".toList, some "8".toList, none, none, none⟩
        = Except.ok ⟨some "Red".toList, kprLabel [] none, marksLabel [] none, some 8, 0⟩ :=
  missing_qty_zero_retained [] ⟨none, some "Red".toList, some "8".toList, none, none, none⟩
    (some 8) (Or.inl rfl) (by with_unfolding_all decide)

/-- C9 theorem: the transform is deterministic — the embedding is a pure
function of the style table and the input rows (the code reads no clock,
randomness or mutable global state), so two runs on byte-identical input
yield identical aggregated values (rendered rows, PO number, ship date);
the auto-width formatting metadata is likewise a function of this content. -/
theorem transform_deterministic (m : StyleMap) (i j : List CsvRow) (h : i = j) :
    generate_pivot_excel m i = generate_pivot_excel m j := by
  rw [h]

/-- Witness for C9 at the concrete input csvW. -/
theorem transform_deterministic_witness :
    generate_pivot_excel mW csvW = generate_pivot_excel mW csvW :=
  transform_deterministic mW csvW csvW rfl

/-! ## Claim theorems: the rendered pivot -/

/-- C1 counterexample: the row filter (line 52) tests colour against "All",
the *default* margins name, while `margins_name="Grand Total"` keys the
synthetic row as ("Grand Total", "", ""); on this one-row input the margin
row therefore survives into the rendered rows with its sentinel key. -/
theorem grand_total_row_not_removed_cex :
    (generate_pivot_excel [] csvOneRow).map
        (fun o => o.rows.any
          (fun r => decide (r.color = grandTotalName ∧ r.kpr = [] ∧ r.marks = [])))
      = Except.ok true := by
  with_unfolding_all decide

/-- C1 amended theorem: the rendered row set is the "All"-filtered body
rows *followed by the retained margin row*: the filter sentinel is "All",
not "Grand Total", so the synthetic grand-total row is kept (as the final
row, where the renderer styles it as the totals row) while no rendered row
has colour "All"; the grand-total column is retained in every row. -/
theorem rendered_rows_structure (l : List EnrichedRow) :
    renderedRows l
      = ((bodyKeys l).map (bodyRowOf l)).filter (fun r => decide (r.color ≠ allName))
        ++ [marginRowOf l]
    ∧ (marginRowOf l).color = grandTotalName
    ∧ (∀ r ∈ renderedRows l, r.color ≠ allName) :=
  ⟨renderedRows_eq l, rfl, rendered_no_all l⟩

/-- Witness for the amended C1 at the concrete row set rowsW. -/
theorem rendered_rows_structure_witness :
    renderedRows rowsW
      = ((bodyKeys rowsW).map (bodyRowOf rowsW)).filter (fun r => decide (r.color ≠ allName))
        ++ [marginRowOf rowsW]
    ∧ (marginRowOf rowsW).color = grandTotalName
    ∧ (∀ r ∈ renderedRows rowsW, r.color ≠ allName) :=
  rendered_rows_structure rowsW

/-- C10 theorem: every pivot row whose colour key is literally "All" is
removed from the rendered output — the filter tests only the colour, not
the provenance of the row — while the retained margin row still aggregates
every margin-surviving input row: its grand cell is the sum over kept rows
(colour and size present) with colour ≠ "All" plus the sum over kept rows
with colour "All", so genuine "All" rows disappear from the body yet still
contribute to the retained totals. -/
theorem color_all_rows_filtered (l : List EnrichedRow) :
    (∀ r ∈ renderedRows l, r.color ≠ allName)
    ∧ marginRowOf l ∈ renderedRows l
    ∧ (marginRowOf l).total
        = qtySum l (fun r => keptForMargins r && !decide (r.color = some allName))
          + qtySum l (fun r => keptForMargins r && decide (r.color = some allName)) := by
  refine ⟨rendered_no_all l, margin_mem_rendered l, ?_⟩
  rw [show (marginRowOf l).total = qtySum l keptForMargins from rfl,
    qtySum_split l keptForMargins (fun r => !decide (r.color = some allName))]
  congr 1
  apply qtySum_congr
  intro r _
  simp

/-- Witness for C10 at rowsW, whose fifth row has the genuine colour "All"
(quantity 7: it is absent from the rendered body yet the margin total
decomposes as 10 + 7). -/
theorem color_all_rows_filtered_witness :
    (∀ r ∈ renderedRows rowsW, r.color ≠ allName)
    ∧ marginRowOf rowsW ∈ renderedRows rowsW
    ∧ (marginRowOf rowsW).total
        = qtySum rowsW (fun r => keptForMargins r && !decide (r.color = some allName))
          + qtySum rowsW (fun r => keptForMargins r && decide (r.color = some allName)) :=
  color_all_rows_filtered rowsW

/-- C4 theorem: for every body row key of the rendered pivot grid, the
cells of the row are exactly, column by column, the sums of the parsed
quantities of the *input CSV rows* whose colour and two resolved style
labels equal the key of the row and whose parsed size equals the key of the column;
a cell whose predicate matches no input row holds 0 (`fill_value=0`). -/
theorem pivot_cell_sum_invariant (m : StyleMap) (csv : List CsvRow)
    (rows : List EnrichedRow) (h : enrichAll m csv = Except.ok rows) :
    ∀ k ∈ bodyKeys rows,
      (k.1 ≠ allName → bodyRowOf rows k ∈ renderedRows rows)
      ∧ (bodyRowOf rows k).cells
          = (sizeColsOf rows).map (fun s => csvQtySum csv (csvKeySizePred m k s))
      ∧ ∀ s : ℚ, csv.filter (csvKeySizePred m k s) = [] → cellVal rows k s = 0 := by
  have hf := enrichAll_forall2 m csv rows h
  have hcell : ∀ k s, cellVal rows k s = csvQtySum csv (csvKeySizePred m k s) := by
    intro k s
    show qtySum rows (fun r => keyMatches k r && decide (r.size = some s))
      = csvQtySum csv (csvKeySizePred m k s)
    apply qtySum_transfer m _ _ _ hf
    intro c e hce
    obtain ⟨hcol, hkpr, hmarks, hsz, _⟩ := enrich_ok_elim m c e hce
    apply bool_eq_of_iff
    simp only [keyMatches, csvKeySizePred, Bool.and_eq_true, decide_eq_true_eq]
    constructor
    · rintro ⟨⟨h1, h2, h3⟩, h4⟩
      refine ⟨by rw [← hcol]; exact h1, by rw [← hkpr]; exact h2,
        by rw [← hmarks]; exact h3, ?_⟩
      rw [hsz, h4]
    · rintro ⟨h1, h2, h3, h4⟩
      have hes : e.size = some s := by
        rw [hsz] at h4
        exact Except.ok.inj h4
      exact ⟨⟨by rw [hcol]; exact h1, by rw [hkpr]; exact h2, by rw [hmarks]; exact h3⟩, hes⟩
  intro k hk
  refine ⟨fun hne => bodyRow_mem_rendered rows k hk hne, ?_, ?_⟩
  · show (sizeColsOf rows).map (cellVal rows k) = _
    apply List.map_congr_left
    intro s _
    exact hcell k s
  · intro s hfil
    rw [hcell k s]
    simp [csvQtySum, hfil]

/-- Witness for C4 at the key (Red, StyleA, StyleX) of the concrete input
csvW. -/
theorem pivot_cell_sum_invariant_witness :
    (kRed.1 ≠ allName → bodyRowOf rowsW kRed ∈ renderedRows rowsW)
    ∧ (bodyRowOf rowsW kRed).cells
        = (sizeColsOf rowsW).map (fun s => csvQtySum csvW (csvKeySizePred mW kRed s))
    ∧ ∀ s : ℚ, csvW.filter (csvKeySizePred mW kRed s) = [] → cellVal rowsW kRed s = 0 :=
  pivot_cell_sum_invariant mW csvW rowsW (by with_unfolding_all decide) kRed
    (by with_unfolding_all decide)

/-- C5 theorem: for every rendered pivot row — each body row and the
retained margin row — the grand-total cell equals the sum of the size-column
cells of that row.  pandas computes the margins over the same
`dropna`-filtered rows as the body, so every quantity counted in a total is
also counted in exactly one size column of that row. -/
theorem grand_total_column_invariant (l : List EnrichedRow) :
    ∀ r ∈ renderedRows l, r.total = r.cells.sum := by
  intro r hr
  unfold renderedRows at hr
  have hr2 : r ∈ pivotRows l := List.mem_of_mem_filter hr
  unfold pivotRows at hr2
  rcases List.mem_append.mp hr2 with hb | hm
  · rcases List.mem_map.mp hb with ⟨k, _, hk⟩
    rw [← hk]
    exact rowTotal_eq_cells_sum l k
  · rw [List.mem_singleton.mp hm]
    exact grand_eq_colTotals_sum l

/-- Witness for C5: the margin row of the concrete row set rowsW (which
has absent-size and absent-colour rows) satisfies the invariant. -/
theorem grand_total_column_invariant_witness :
    (marginRowOf rowsW).total = (marginRowOf rowsW).cells.sum :=
  grand_total_column_invariant rowsW (marginRowOf rowsW) (by with_unfolding_all decide)

/-- C2 counterexample: the second input row has the unparsable size "x"
(parsed as absent, quantity 5), yet the pivot has exactly one size column
(8) and no absent-size bucket, and the row is dropped from the aggregation
entirely: both rendered rows are [3] with grand-total 3 — the quantity 5
appears in no cell and no total. -/
theorem absent_size_no_column_cex :
    parse_size (some "x".toList) = Except.ok none
    ∧ generate_pivot_excel [] csvAbsent
        = Except.ok
            ⟨[⟨"Red".toList, unknownStyle, unknownStyle, [3], 3⟩,
              ⟨grandTotalName, [], [], [3], 3⟩],
             "P1".toList, "D1".toList⟩ := by
  constructor
  · with_unfolding_all decide
  · with_unfolding_all decide

/-- C2 amended theorem: for a row whose size is missing or unparsable the
parser returns an absent value, but the row is then excluded from the
pivot aggregation entirely: no absent-size column bucket exists (every
rendered size column is the parsed size of some row with a present
colour), and dropping all absent-size rows from the input leaves the
rendered output — every cell and every total — unchanged. -/
theorem absent_size_rows_amended (l : List EnrichedRow) :
    (∀ s ∈ sizeColsOf l, ∃ r ∈ l, r.size = some s ∧ r.color ≠ none)
    ∧ renderedRows (l.filter keepSized) = renderedRows l := by
  refine ⟨?_, renderedRows_drop_absent l⟩
  intro s hs
  rcases (mem_sizeColsOf l s).mp hs with ⟨r, hr, hck⟩
  refine ⟨r, hr, ?_⟩
  cases hc : r.color with
  | none =>
    simp only [colKeyOf, hc] at hck
    exact Option.noConfusion hck
  | some a =>
    cases hsz : r.size with
    | none =>
      simp only [colKeyOf, hc, hsz] at hck
      exact Option.noConfusion hck
    | some s2 =>
      simp only [colKeyOf, hc, hsz, Option.some.injEq] at hck
      constructor
      · rw [hck]
      · simp

/-- Witness for the amended C2 at the concrete row set rowsW, whose fourth
row has an absent size. -/
theorem absent_size_rows_amended_witness :
    (∀ s ∈ sizeColsOf rowsW, ∃ r ∈ rowsW, r.size = some s ∧ r.color ≠ none)
    ∧ renderedRows (rowsW.filter keepSized) = renderedRows rowsW :=
  absent_size_rows_amended rowsW
